import Mathlib

/-!
XSpy: a shallow embedding of `xspy.c`.

`xspy.c` lists the window tree of an X display (`xspy list`) or registers for key
events on one or all windows and prints them (`xspy spy [window_id]`).

The embedding is explicit state passing over a `World` (standard output, standard
error, the event mask this client selected on each window, and the trace of Xlib
calls issued), against a stub `Server` that answers the Xlib queries.

* C strings are `List Char` (no terminating NUL inside the list).
* `Window` (`unsigned long`) is `Nat`; `long` has `bits` bits and is `Int` with the
  range handling of `strtol` written out.
* The recursion of `ListWindows` / `RegisterListeners` over the server's tree is
  bounded by a fuel argument; running out of fuel is `none`.
-/

namespace XSpy

/-! ## Data model -/

/-- A C string: the characters before the terminating NUL. -/
abbrev CString := List Char

/-- An X window identifier (`Window`, an `unsigned long`). -/
abbrev Window := Nat

/-- An X keysym (`KeySym`). -/
abbrev KeySym := Nat

/-- The program mode: `typedef enum {MODE_LIST = 0, MODE_SPY = 1} Mode;`. -/
inductive Mode where
  | MODE_LIST
  | MODE_SPY
  deriving DecidableEq, Repr

/-- The `XEvent` fields the program reads: the type and, through the `XKeyEvent` view,
the window; `keycode` and `state` are what `XLookupString` decodes. -/
structure XEvent where
  type : Nat
  window : Window
  keycode : Nat
  state : Nat
  deriving DecidableEq, Repr

/-- The Xlib calls that reach the display, in the order they are issued. -/
inductive XCall where
  | OpenDisplay
  | QueryTree (w : Window)
  | FetchName (w : Window)
  | SelectInput (w : Window) (mask : Nat)
  | CloseDisplay
  deriving DecidableEq, Repr

/-- The stub X server and keyboard tables the program talks to. -/
structure Server where
  /-- Whether `XOpenDisplay(NULL)` returns a display. -/
  canOpen : Bool
  /-- The value of `DefaultRootWindow(dsp)`. -/
  root : Window
  /-- The answer of `XQueryTree`: `none` is a zero status, `some l` the children list. -/
  queryTree : Window → Option (List Window)
  /-- The answer of `XFetchName`: `none` is a zero status (name set to NULL). -/
  fetchName : Window → Option CString
  /-- The keysym `XLookupString` stores for an event. -/
  lookupKeysym : XEvent → KeySym
  /-- The answer of `XKeysymToString`: `none` is NULL. -/
  keysymName : KeySym → Option CString

/-- The observable state of a run. -/
structure World where
  /-- Standard output. -/
  out : CString
  /-- Standard error. -/
  err : CString
  /-- The event mask this client has selected on each window. -/
  masks : Window → Nat
  /-- The Xlib calls issued so far. -/
  trace : List XCall

/-- Effect of `printf` with an already formatted text. -/
def World.printf (st : World) (s : CString) : World :=
  { st with out := st.out ++ s }

/-- Effect of `fprintf(stderr, ...)` with an already formatted text. -/
def World.eprintf (st : World) (s : CString) : World :=
  { st with err := st.err ++ s }

/-- Records an Xlib call. -/
def World.call (st : World) (c : XCall) : World :=
  { st with trace := st.trace ++ [c] }

/-- How a piece of the program ends. -/
inductive Res (α : Type) where
  /-- The function returned. -/
  | ret (a : α) (st : World)
  /-- The function `exit` was called with this status. -/
  | exit (code : Nat) (st : World)
  /-- The process waits in `XNextEvent` for ever (the event script is exhausted). -/
  | blocked (st : World)
  /-- Undefined behaviour: `printf("%s\n", NULL)`. -/
  | undef (st : World)
  /-- The recursion bound of the embedding was reached. -/
  | fuel

/-! ## X11 constants (from `X11/X.h`) -/

/-- The event type `KeyPress`. -/
def KeyPress : Nat := 2
/-- The event type `KeyRelease`. -/
def KeyRelease : Nat := 3
/-- The mask `KeyPressMask`, `1L<<0`. -/
def KeyPressMask : Nat := 1
/-- The mask `KeyReleaseMask`, `1L<<1`. -/
def KeyReleaseMask : Nat := 2

/-! ## libc: `strtol` in base 16 -/

/-- C `isspace` in the "C" locale: space, and `\t \n \v \f \r`. -/
def isspace (c : Char) : Bool :=
  c.toNat = 32 || (9 ≤ c.toNat && c.toNat ≤ 13)

/-- The value of a hexadecimal digit, `none` for any other character. -/
def hexDigitVal (c : Char) : Option Nat :=
  if 48 ≤ c.toNat ∧ c.toNat ≤ 57 then some (c.toNat - 48)
  else if 97 ≤ c.toNat ∧ c.toNat ≤ 102 then some (c.toNat - 87)
  else if 65 ≤ c.toNat ∧ c.toNat ≤ 70 then some (c.toNat - 55)
  else none

/-- The digit loop of `strtol`: consumes the longest run of hexadecimal digits,
accumulating their value, and returns it with the unread rest. -/
def strtolDigits : CString → Nat → Nat × CString
  | [], acc => (acc, [])
  | c :: cs, acc =>
    match hexDigitVal c with
    | some d => strtolDigits cs (acc * 16 + d)
    | none => (acc, c :: cs)

/-- The optional sign of `strtol`: whether it is `-`, and the text after it. -/
def strtolSign : CString → Bool × CString
  | [] => (false, [])
  | c :: r => if c = '-' then (true, r) else if c = '+' then (false, r) else (false, c :: r)

/-- The optional `0x` / `0X` of `strtol` in base 16, skipped only when a hexadecimal
digit follows it. -/
def strtolSkip0x : CString → CString
  | c :: x :: h :: r =>
    if c = '0' ∧ (x = 'x' ∨ x = 'X') ∧ (hexDigitVal h).isSome then h :: r
    else c :: x :: h :: r
  | s => s

/-- The value `strtol` returns for the magnitude `mag` read with or without a minus
sign: a value outside the range of a `long` of `bits` bits is clamped to `LONG_MIN` or
`LONG_MAX`. -/
def strtolClamp (bits : Nat) (neg : Bool) (mag : Nat) : Int :=
  if neg then
    (if mag ≤ 2 ^ (bits - 1) then - (mag : Int) else - (2 ^ (bits - 1) : Int))
  else
    (if mag < 2 ^ (bits - 1) then (mag : Int) else (2 ^ (bits - 1) : Int) - 1)

/-- C `strtol(nptr, &endPtr, 16)` for a `long` of `bits` bits: the returned value and
the text `endPtr` points to. White space is skipped, one sign is accepted, `0x`/`0X`
is skipped when a hexadecimal digit follows it; without any digit the value is 0 and
`endPtr` is `nptr`. -/
def strtol16 (bits : Nat) (nptr : CString) : Int × CString :=
  let signed := strtolSign (nptr.dropWhile isspace)
  let body := strtolSkip0x signed.2
  match body with
  | [] => (0, nptr)
  | c :: _ =>
    if (hexDigitVal c).isNone then (0, nptr)
    else
      let r := strtolDigits body 0
      (strtolClamp bits signed.1 r.1, r.2)

/-- Conversion of a `long` to `unsigned long` (`*win = strtol(...)`). -/
def toULong (bits : Nat) (v : Int) : Window :=
  (v % (2 ^ bits : Int)).toNat

/-! ## `DisplayUsage` and `ParseOptions` -/

/-- The text `DisplayUsage` writes, one `fprintf` per line of the source. -/
def usageText : CString :=
  "Usage: xspy \x7blist | spy [window_id]| help\x7d\n".toList
  ++ "\n".toList
  ++ "Valid modes :\n".toList
  ++ "\tlist : displays all windows of the display.\n".toList
  ++ "\tspy : listen the windows for key events.\n".toList
  ++ "\thelp : this help message.\n".toList
  ++ "\n".toList
  ++ "Parameters :\n".toList
  ++ "\twindow_id : the id of the window to listen.\n".toList
  ++ "\t            If not specified, listen to all windows\n".toList
  ++ "\n".toList
  ++ "How to change the display ?\n".toList
  ++ "\t$ DISPLAY=host:display program\n".toList
  ++ "\tExample :\n".toList
  ++ "\t$ DISPLAY=tx10:0 xspy\n".toList

/-- The function `DisplayUsage`: writes the help message to standard error and calls `exit(1)`. -/
def DisplayUsage {α : Type} (st : World) : Res α :=
  Res.exit 1 (st.eprintf usageText)

/-- The function `ParseOptions(argc, argv, win)` with `argc = argv.length`; `win` is the value
`*win` holds on entry, and the returned pair is the mode and the final `*win`. -/
def ParseOptions (bits : Nat) (argv : List CString) (win : Window) (st : World) :
    Res (Mode × Window) :=
  if argv.length > 1 then
    if argv.getD 1 [] = "list".toList then
      Res.ret (Mode.MODE_LIST, win) st
    else if argv.getD 1 [] = "spy".toList then
      if argv.length ≠ 3 then
        Res.ret (Mode.MODE_SPY, 0) st
      else
        let r := strtol16 bits (argv.getD 2 [])
        if r.2 ≠ [] then
          DisplayUsage
            (st.eprintf ("Unknown number: '".toList ++ argv.getD 2 [] ++ "'\n".toList))
        else
          Res.ret (Mode.MODE_SPY, toULong bits r.1) st
    else if argv.getD 1 [] = "help".toList then
      DisplayUsage st
    else
      DisplayUsage (st.eprintf ("Unknown mode '".toList ++ argv.getD 1 [] ++ "'\n".toList))
  else
    DisplayUsage st

/-! ## libc: `printf("%#.8lx", w)` -/

/-- The lowercase hexadecimal digit character of a value below 16. -/
def hexChar (d : Nat) : Char :=
  if d < 10 then Char.ofNat (48 + d) else Char.ofNat (87 + d)

/-- The digit loop of the `x` conversion: the hexadecimal digits of `n`, most
significant first, pushed in front of `acc`; `fuel` bounds the number of digits. -/
def hexDigitsAux : Nat → Nat → CString → CString
  | 0, _, acc => acc
  | fuel + 1, n, acc =>
    if n < 16 then hexChar n :: acc
    else hexDigitsAux fuel (n / 16) (hexChar (n % 16) :: acc)

/-- The lowercase hexadecimal digits of `n` without leading zeros (`0` for zero). -/
def hexDigits (n : Nat) : CString :=
  hexDigitsAux (n + 1) n []

/-- The precision `.8` of an integer conversion: at least eight digits, zeros in front. -/
def zeroPad8 (ds : CString) : CString :=
  List.replicate (8 - ds.length) '0' ++ ds

/-- C `printf("%#.8lx", w)`: at least eight lowercase hexadecimal digits; the `#` flag
puts `0x` in front of a nonzero value only. -/
def fmtAltHex8 (w : Window) : CString :=
  if w = 0 then zeroPad8 (hexDigits w) else '0' :: 'x' :: zeroPad8 (hexDigits w)

/-! ## The window tree walker -/

/-- The indentation loop of `PrintWindow`: `for (i = 0; i < depth; i++) printf("  ");`. -/
def indentLoop : Nat → World → World
  | 0, st => st
  | depth + 1, st => indentLoop depth (st.printf "  ".toList)

/-- The function `PrintWindow(dsp, w, depth)`; `XFree(name)` has no observable effect. -/
def PrintWindow (srv : Server) (w : Window) (depth : Nat) (st : World) : World :=
  let st := indentLoop depth st
  let st := st.printf (fmtAltHex8 w ++ " - ".toList)
  let st := st.call (XCall.FetchName w)
  let st :=
    match srv.fetchName w with
    | some name => st.printf ("\"".toList ++ name ++ "\"".toList)
    | none => st.printf "(has no name)".toList
  st.printf "\n".toList

/-- The function `ListWindows(dsp, w, depth)`; the `for` loop over `windowsList` is the
fold. `none` when the recursion bound `fuel` is reached. -/
def ListWindows (srv : Server) : Nat → Window → Nat → World → Option World
  | 0, _, _, _ => none
  | fuel + 1, w, depth, st =>
    match srv.queryTree w with
    | some windowsList =>
      windowsList.foldlM
        (fun st c => ListWindows srv fuel c (depth + 1) (PrintWindow srv c depth st))
        (st.call (XCall.QueryTree w))
    | none => some (st.call (XCall.QueryTree w))

/-- The function `ListAllWindows(dsp)`. -/
def ListAllWindows (srv : Server) (fuel : Nat) (st : World) : Option World :=
  ListWindows srv fuel srv.root 1 (PrintWindow srv srv.root 0 st)

/-! ## The listener registrar -/

/-- Xlib `XSelectInput(dsp, w, mask)`: the client event mask of `w` becomes `mask`. -/
def XSelectInput (w : Window) (mask : Nat) (st : World) : World :=
  { st.call (XCall.SelectInput w mask) with
    masks := fun x => if x = w then mask else st.masks x }

/-- The function `RegisterListener(dsp, w)`. -/
def RegisterListener (w : Window) (st : World) : World :=
  XSelectInput w (KeyPressMask ||| KeyReleaseMask) st

/-- The function `RegisterListeners(dsp, w)`; the `for` loop over `windowsList` is the
fold. `none` when the recursion bound `fuel` is reached. -/
def RegisterListeners (srv : Server) : Nat → Window → World → Option World
  | 0, _, _ => none
  | fuel + 1, w, st =>
    match srv.queryTree w with
    | some windowsList =>
      windowsList.foldlM
        (fun st c => RegisterListeners srv fuel c (RegisterListener c st))
        (st.call (XCall.QueryTree w))
    | none => some (st.call (XCall.QueryTree w))

/-- The function `RegisterAllListeners(dsp)`. -/
def RegisterAllListeners (srv : Server) (fuel : Nat) (st : World) : Option World :=
  RegisterListeners srv fuel srv.root (RegisterListener srv.root st)

/-! ## The event loop -/

/-- The function `WaitForKeys(dsp)` against a finite script of the events `XNextEvent`
delivers: when the script is exhausted `XNextEvent` never returns. The buffer `key_str`
is written and never read. When `XKeysymToString` returns NULL, `printf("%s\n", NULL)`
is undefined behaviour. -/
def WaitForKeys (srv : Server) : List XEvent → World → Res Nat
  | [], st => Res.blocked st
  | evt :: rest, st =>
    if evt.type = KeyPress ∨ evt.type = KeyRelease then
      let key := srv.lookupKeysym evt
      let st := st.printf (fmtAltHex8 evt.window ++ ": ".toList)
      let st :=
        if evt.type = KeyPress then st.printf "KeyPress: ".toList
        else st.printf "KeyRelease: ".toList
      match srv.keysymName key with
      | some name => WaitForKeys srv rest (st.printf (name ++ "\n".toList))
      | none => Res.undef st
    else
      WaitForKeys srv rest (st.printf "UnhandledEvent\n".toList)

/-! ## `main` -/

/-- The body of `main` after `ParseOptions` returned `mode` and `win`. -/
def mainAfterParse (srv : Server) (fuel : Nat) (events : List XEvent)
    (mode : Mode) (win : Window) (st : World) : Res Nat :=
  if srv.canOpen = false then
    Res.exit 1 ((st.call XCall.OpenDisplay).eprintf "Unable to open display\n".toList)
  else
    match mode with
    | Mode.MODE_LIST =>
      match ListAllWindows srv fuel (st.call XCall.OpenDisplay) with
      | some st => Res.ret 0 (st.call XCall.CloseDisplay)
      | none => Res.fuel
    | Mode.MODE_SPY =>
      let registered :=
        if win = 0 then RegisterAllListeners srv fuel (st.call XCall.OpenDisplay)
        else some (RegisterListener win (st.call XCall.OpenDisplay))
      match registered with
      | some st =>
        match WaitForKeys srv events st with
        | Res.ret _ st => Res.ret 0 (st.call XCall.CloseDisplay)
        | r => r
      | none => Res.fuel

/-- The function `main(argc, argv)`: `win0` is the indeterminate initial value of the
local `win`, `events` the script of events the server delivers, `fuel` the recursion
bound. -/
def main (bits : Nat) (srv : Server) (fuel : Nat) (events : List XEvent)
    (argv : List CString) (win0 : Window) (st : World) : Res Nat :=
  match ParseOptions bits argv win0 st with
  | Res.ret (mode, win) st => mainAfterParse srv fuel events mode win st
  | Res.exit code st => Res.exit code st
  | Res.blocked st => Res.blocked st
  | Res.undef st => Res.undef st
  | Res.fuel => Res.fuel

/-! ## Specification vocabulary: hexadecimal window-id strings -/

/-- The hexadecimal digits and their values. -/
def hexDigitTable : List (Char × Nat) :=
  [('0', 0), ('1', 1), ('2', 2), ('3', 3), ('4', 4), ('5', 5), ('6', 6), ('7', 7),
   ('8', 8), ('9', 9), ('a', 10), ('b', 11), ('c', 12), ('d', 13), ('e', 14), ('f', 15),
   ('A', 10), ('B', 11), ('C', 12), ('D', 13), ('E', 14), ('F', 15)]

/-- Whether a character is a hexadecimal digit. -/
def isHexDigit (c : Char) : Bool :=
  (hexDigitTable.lookup c).isSome

/-- The number a string of hexadecimal digits denotes in base 16. -/
def hexValue (ds : CString) : Nat :=
  ds.foldl (fun acc c => acc * 16 + (hexDigitTable.lookup c).getD 0) 0

/-- The digits of a window-id string: the string without a leading `0x` or `0X`. -/
def hexIdDigits : CString → CString
  | '0' :: 'x' :: ds => ds
  | '0' :: 'X' :: ds => ds
  | s => s

/-- A valid hexadecimal window-id string: one or more hexadecimal digits, with or
without `0x` / `0X` in front. -/
def isHexId (s : CString) : Bool :=
  !(hexIdDigits s).isEmpty && (hexIdDigits s).all isHexDigit

/-- The number a hexadecimal window-id string denotes. -/
def hexIdValue (s : CString) : Nat :=
  hexValue (hexIdDigits s)

/-- The world before the program starts: nothing written, no mask selected, no call. -/
def World.init : World :=
  ⟨[], [], fun _ => 0, []⟩

/-! ## Specification vocabulary: the lines of list mode -/

/-- Whether a character is one of the lowercase hexadecimal digits. -/
def isLowerHexDigit (c : Char) : Bool :=
  decide (c ∈ "0123456789abcdef".toList)

/-- The title position of a line: the title in double quotes, or the placeholder. -/
def titleField (srv : Server) (w : Window) : CString :=
  match srv.fetchName w with
  | some t => "\"".toList ++ t ++ "\"".toList
  | none => "(has no name)".toList

/-- The line of window `w` at distance `d` from the root: two spaces per level, the
identifier as `%#.8lx` prints it, ` - `, the title position, a newline. -/
def windowLine (srv : Server) (w : Window) (d : Nat) : CString :=
  List.replicate (2 * d) ' ' ++ fmtAltHex8 w ++ " - ".toList ++ titleField srv w ++
    "\n".toList

/-- A stub server for examples: root 1 with children 2 and 3, window 2 with child 4,
the tree query of window 3 fails; window 2 is titled `xterm`; the keysym of an event is
its keycode, and keysym 97 is named `a`. -/
def Server.example : Server where
  canOpen := true
  root := 1
  queryTree := fun w =>
    if w = 1 then some [2, 3] else if w = 2 then some [4] else if w = 3 then none
    else some []
  fetchName := fun w => if w = 2 then some "xterm".toList else none
  lookupKeysym := fun e => e.keycode
  keysymName := fun k => if k = 97 then some "a".toList else none

/-! ## Specification vocabulary: finite window trees -/

/-- A finite forest of windows in server order: empty, or a first window with the forest
of its children, followed by the forest of its following siblings. The tree of a
display is its root window with the forest of the root's children. -/
inductive Forest where
  | nil
  | cons (w : Window) (children : Forest) (siblings : Forest)
  deriving DecidableEq, Repr

/-- The top-level windows of a forest, in order. -/
def Forest.roots : Forest → List Window
  | Forest.nil => []
  | Forest.cons w _ siblings => w :: Forest.roots siblings

/-- The windows of a forest in pre-order (a window before its children, children and
siblings in server order), each with its distance from the root of the display when
the top level of the forest is at distance `d`. -/
def Forest.preorder : Forest → Nat → List (Window × Nat)
  | Forest.nil, _ => []
  | Forest.cons w children siblings, d =>
    (w, d) :: (Forest.preorder children (d + 1) ++ Forest.preorder siblings d)

/-- The number of levels of a forest. -/
def Forest.height : Forest → Nat
  | Forest.nil => 0
  | Forest.cons _ children siblings =>
    max (Forest.height children + 1) (Forest.height siblings)

/-- The server reports the forest: the tree query of every window of the forest either
answers the top level of the window's children forest, or fails, and then the window
has no children in the forest. -/
def Forest.reportedBy (srv : Server) : Forest → Bool
  | Forest.nil => true
  | Forest.cons w children siblings =>
    (decide (srv.queryTree w = some (Forest.roots children)) ||
      (decide (srv.queryTree w = none) && decide (Forest.roots children = []))) &&
    Forest.reportedBy srv children && Forest.reportedBy srv siblings

/-- The same server with the answer of the tree query of `w` replaced by `ans`. -/
def Server.setChildren (srv : Server) (w : Window) (ans : Option (List Window)) : Server :=
  { srv with queryTree := fun v => if v = w then ans else srv.queryTree v }

/-- The `XSelectInput` requests of a trace, in order: window and mask. -/
def selectRequests : List XCall → List (Window × Nat)
  | [] => []
  | XCall.SelectInput w mask :: cs => (w, mask) :: selectRequests cs
  | _ :: cs => selectRequests cs

/-- The windows of the `XQueryTree` requests of a trace, in order. -/
def treeQueries : List XCall → List Window
  | [] => []
  | XCall.QueryTree w :: cs => w :: treeQueries cs
  | _ :: cs => treeQueries cs

/-- The world a run ends in, when the embedding did not run out of fuel. -/
def Res.world {α : Type} : Res α → Option World
  | Res.ret _ st => some st
  | Res.exit _ st => some st
  | Res.blocked st => some st
  | Res.undef st => some st
  | Res.fuel => none

/-- The line of spy mode for an event whose keysym, if it is a key event, has a name. -/
def eventLine (srv : Server) (e : XEvent) : CString :=
  if e.type = KeyPress then
    fmtAltHex8 e.window ++ ": ".toList ++ "KeyPress: ".toList ++
      (srv.keysymName (srv.lookupKeysym e)).getD [] ++ "\n".toList
  else if e.type = KeyRelease then
    fmtAltHex8 e.window ++ ": ".toList ++ "KeyRelease: ".toList ++
      (srv.keysymName (srv.lookupKeysym e)).getD [] ++ "\n".toList
  else "UnhandledEvent\n".toList

/-- The forest below the root of `Server.example`: 2 (with child 4) and 3. -/
def Forest.example : Forest :=
  Forest.cons 2 (Forest.cons 4 Forest.nil Forest.nil) (Forest.cons 3 Forest.nil Forest.nil)

/-- The windows of a forest in pre-order. -/
def Forest.windows : Forest → List Window
  | Forest.nil => []
  | Forest.cons w children siblings =>
    w :: (Forest.windows children ++ Forest.windows siblings)

/-- The Xlib calls of the tree walker over a forest: for each window in pre-order the
name query of its line, then its tree query. -/
def Forest.listCalls : Forest → List XCall
  | Forest.nil => []
  | Forest.cons w children siblings =>
    XCall.FetchName w :: XCall.QueryTree w ::
      (Forest.listCalls children ++ Forest.listCalls siblings)

/-- The Xlib calls of the registrar over a forest: for each window in pre-order the
selection of key presses and releases, then its tree query. -/
def Forest.registerCalls : Forest → List XCall
  | Forest.nil => []
  | Forest.cons w children siblings =>
    XCall.SelectInput w (KeyPressMask ||| KeyReleaseMask) :: XCall.QueryTree w ::
      (Forest.registerCalls children ++ Forest.registerCalls siblings)

/-- The lines of the windows of a forest, in pre-order, the top level at depth `d`. -/
def Forest.lines (srv : Server) (f : Forest) (d : Nat) : CString :=
  ((Forest.preorder f d).map (fun p => windowLine srv p.1 p.2)).flatten


/-! ## Lemmas on the hexadecimal parser -/

theorem hexDigitVal_eq_lookup (c : Char) : hexDigitVal c = hexDigitTable.lookup c := by
  by_cases h : (48 ≤ c.toNat ∧ c.toNat ≤ 57) ∨ (97 ≤ c.toNat ∧ c.toNat ≤ 102) ∨
      (65 ≤ c.toNat ∧ c.toNat ≤ 70)
  · have hc : ∃ n, c = Char.ofNat n ∧ ((48 ≤ n ∧ n ≤ 57) ∨ (97 ≤ n ∧ n ≤ 102) ∨
        (65 ≤ n ∧ n ≤ 70)) := ⟨c.toNat, (Char.ofNat_toNat c).symm, h⟩
    obtain ⟨n, rfl, hn⟩ := hc
    rcases hn with ⟨h1, h2⟩ | ⟨h1, h2⟩ | ⟨h1, h2⟩ <;> interval_cases n <;> decide
  · have hne : ∀ k : Char, ((48 ≤ k.toNat ∧ k.toNat ≤ 57) ∨
        (97 ≤ k.toNat ∧ k.toNat ≤ 102) ∨ (65 ≤ k.toNat ∧ k.toNat ≤ 70)) →
        (c == k) = false := by
      intro k hk
      rw [beq_eq_false_iff_ne]
      rintro rfl
      exact h hk
    have h1 : hexDigitVal c = none := by
      unfold hexDigitVal
      push_neg at h
      rw [if_neg (by omega), if_neg (by omega), if_neg (by omega)]
    rw [h1]
    simp only [hexDigitTable, List.lookup]
    repeat rw [hne _ (by decide)]

theorem hexDigitVal_isSome (c : Char) : (hexDigitVal c).isSome = isHexDigit c := by
  rw [hexDigitVal_eq_lookup]; rfl

/-- A hexadecimal digit is not white space, not a sign and not the letter of `0x`. -/
theorem isHexDigit_facts (c : Char) (h : isHexDigit c = true) :
    isspace c = false ∧ c ≠ '-' ∧ c ≠ '+' ∧ c ≠ 'x' ∧ c ≠ 'X' := by
  rw [← hexDigitVal_isSome] at h
  have hr : (48 ≤ c.toNat ∧ c.toNat ≤ 57) ∨ (97 ≤ c.toNat ∧ c.toNat ≤ 102) ∨
      (65 ≤ c.toNat ∧ c.toNat ≤ 70) := by
    unfold hexDigitVal at h
    by_contra hne
    push_neg at hne
    rw [if_neg (by omega), if_neg (by omega), if_neg (by omega)] at h
    simp at h
  refine ⟨?_, ?_, ?_, ?_, ?_⟩
  · simp only [isspace, Bool.or_eq_false_iff, Bool.and_eq_false_iff, decide_eq_false_iff_not]
    omega
  all_goals
    rintro rfl
    revert hr
    decide

theorem strtolDigits_run (ds t : CString) (acc : Nat)
    (hds : ∀ c ∈ ds, isHexDigit c = true)
    (ht : ∀ c r, t = c :: r → isHexDigit c = false) :
    strtolDigits (ds ++ t) acc =
      (ds.foldl (fun a c => a * 16 + (hexDigitTable.lookup c).getD 0) acc, t) := by
  induction ds generalizing acc with
  | nil =>
    cases t with
    | nil => rfl
    | cons c r =>
      have h := ht c r rfl
      rw [← hexDigitVal_isSome] at h
      simp only [List.nil_append, strtolDigits, List.foldl_nil]
      cases hv : hexDigitVal c with
      | none => rfl
      | some d => rw [hv] at h; simp at h
  | cons c cs ih =>
    have h := hds c (List.mem_cons_self _ _)
    rw [← hexDigitVal_isSome] at h
    obtain ⟨d, hd⟩ := Option.isSome_iff_exists.mp h
    have hstep : strtolDigits (c :: cs ++ t) acc = strtolDigits (cs ++ t) (acc * 16 + d) := by
      simp only [List.cons_append, strtolDigits, hd]
      rfl
    rw [hstep, ih _ (fun x hx => hds x (List.mem_cons_of_mem _ hx))]
    rw [hexDigitVal_eq_lookup] at hd
    simp [hd]

theorem isHexId_cases (n : CString) (h : isHexId n = true) :
    (∃ x ds, (x = 'x' ∨ x = 'X') ∧ n = '0' :: x :: ds ∧ hexIdDigits n = ds ∧ ds ≠ [] ∧
        ∀ c ∈ ds, isHexDigit c = true) ∨
    (hexIdDigits n = n ∧ n ≠ [] ∧ ∀ c ∈ n, isHexDigit c = true) := by
  have hall : hexIdDigits n ≠ [] ∧ ∀ c ∈ hexIdDigits n, isHexDigit c = true := by
    simp only [isHexId, Bool.and_eq_true, Bool.not_eq_true', List.isEmpty_eq_false,
      List.all_eq_true] at h
    exact ⟨by simpa [List.isEmpty_iff] using h.1, h.2⟩
  unfold hexIdDigits at hall ⊢
  split at hall
  · exact Or.inl ⟨'x', _, Or.inl rfl, rfl, rfl, hall.1, hall.2⟩
  · exact Or.inl ⟨'X', _, Or.inr rfl, rfl, rfl, hall.1, hall.2⟩
  · exact Or.inr ⟨rfl, hall.1, hall.2⟩

theorem strtolSign_hex (c : Char) (r : CString) (h : isHexDigit c = true) :
    strtolSign ((c :: r).dropWhile isspace) = (false, c :: r) := by
  obtain ⟨h1, h2, h3, -, -⟩ := isHexDigit_facts c h
  simp [List.dropWhile, h1, strtolSign, h2, h3]

/-- The result of `strtol` on a hexadecimal window-id string `n` followed by a text `t`
that does not continue the number. -/
theorem strtol16_hexId (bits : Nat) (n t : CString) (hn : isHexId n = true)
    (ht : ∀ c r, t = c :: r → isHexDigit c = false)
    (hno : ∀ x h r, n = ['0'] → t = x :: h :: r → (x = 'x' ∨ x = 'X') →
      isHexDigit h = false) :
    strtol16 bits (n ++ t) = (strtolClamp bits false (hexIdValue n), t) := by
  have h0 : isHexDigit '0' = true := by decide
  rcases isHexId_cases n hn with ⟨x, ds, hx, rfl, hd, hne, hall⟩ | ⟨hd, hne, hall⟩
  · obtain ⟨h, r, rfl⟩ := List.exists_cons_of_ne_nil hne
    have hh : isHexDigit h = true := hall h (List.mem_cons_self _ _)
    have hh2 : (hexDigitVal h).isSome = true := by rw [hexDigitVal_isSome]; exact hh
    have hh3 : (hexDigitVal h).isNone = false := by
      rw [Option.isNone_eq_false_iff]; exact hh2  
    have hbody : strtolSkip0x ('0' :: x :: h :: (r ++ t)) = h :: (r ++ t) := by
      simp [strtolSkip0x, hx, hh2]
    simp only [strtol16, List.cons_append, strtolSign_hex _ _ h0, hbody, hh3]
    have := strtolDigits_run (h :: r) t 0 hall ht
    simp only [List.cons_append] at this
    simp [this, hexIdValue, hd, hexValue]
  · obtain ⟨c, r, rfl⟩ := List.exists_cons_of_ne_nil hne
    have hc : isHexDigit c = true := hall c (List.mem_cons_self _ _)
    have hc2 : (hexDigitVal c).isSome = true := by rw [hexDigitVal_isSome]; exact hc
    have hc3 : (hexDigitVal c).isNone = false := by
      rw [Option.isNone_eq_false_iff]; exact hc2  
    have hbody : strtolSkip0x (c :: (r ++ t)) = c :: (r ++ t) := by
      cases r with
      | nil =>
        cases t with
        | nil => rfl
        | cons x t1 =>
          cases t1 with
          | nil => rfl
          | cons h t2 =>
            simp only [List.nil_append, strtolSkip0x]
            rw [if_neg]
            rintro ⟨rfl, hx, hh⟩
            have := hno x h t2 rfl rfl hx
            rw [hexDigitVal_isSome] at hh
            rw [hh] at this
            exact absurd this (by decide)
      | cons x r1 =>
        have hxd : isHexDigit x = true := hall x (by simp)
        obtain ⟨-, -, -, hx1, hx2⟩ := isHexDigit_facts x hxd
        cases hrt : r1 ++ t with
        | nil => simp [strtolSkip0x, hrt]
        | cons h t2 =>
          simp only [List.cons_append, hrt, strtolSkip0x]
          rw [if_neg]
          rintro ⟨-, hx | hx, -⟩
          · exact hx1 hx
          · exact hx2 hx
    simp only [strtol16, List.cons_append, strtolSign_hex _ _ hc, hbody, hc3]
    have := strtolDigits_run (c :: r) t 0 hall ht
    simp only [List.cons_append] at this
    simp [this, hexIdValue, hd, hexValue]


theorem hexIdDigits_of_all_hex (m : CString) (h : ∀ c ∈ m, isHexDigit c = true) :
    hexIdDigits m = m := by
  unfold hexIdDigits
  split
  · exact absurd (h 'x' (by simp)) (by decide)
  · exact absurd (h 'X' (by simp)) (by decide)
  · rfl

theorem isHexId_snoc (n : CString) (c : Char) (hn : isHexId n = true)
    (hc : isHexDigit c = true) : isHexId (n ++ [c]) = true := by
  rcases isHexId_cases n hn with ⟨x, ds, hx, rfl, -, -, hall⟩ | ⟨-, -, hall⟩
  · have hd : hexIdDigits ('0' :: x :: ds ++ [c]) = ds ++ [c] := by
      rcases hx with rfl | rfl <;> rfl
    simp only [isHexId, hd, Bool.and_eq_true, Bool.not_eq_true', List.all_eq_true]
    refine ⟨by simp, ?_⟩
    intro y hy
    rcases List.mem_append.mp hy with hy | hy
    · exact hall y hy
    · simp at hy; subst hy; exact hc
  · have hall2 : ∀ y ∈ n ++ [c], isHexDigit y = true := by
      intro y hy
      rcases List.mem_append.mp hy with hy | hy
      · exact hall y hy
      · simp at hy; subst hy; exact hc
    simp only [isHexId, hexIdDigits_of_all_hex _ hall2, Bool.and_eq_true, Bool.not_eq_true',
      List.all_eq_true]
    exact ⟨by simp, hall2⟩

theorem toULong_clamp (bits v : Nat) :
    toULong bits (strtolClamp bits false v) = min v (2 ^ (bits - 1) - 1) := by
  have hpos : 0 < 2 ^ (bits - 1) := Nat.two_pow_pos _
  have hle : 2 ^ (bits - 1) ≤ 2 ^ bits := Nat.pow_le_pow_right (by norm_num) (by omega)
  have key : ∀ m : Nat, m < 2 ^ (bits - 1) → toULong bits (m : Int) = m := by
    intro m hm
    unfold toULong
    have h1 : ((m : Int)) % (2 ^ bits : Int) = m := by
      apply Int.emod_eq_of_lt (by positivity)
      have : m < 2 ^ bits := by omega
      exact_mod_cast this
    rw [h1]; simp
  simp only [strtolClamp, Bool.false_eq_true, if_false]
  by_cases h : v < 2 ^ (bits - 1)
  · rw [if_pos h, key v h, Nat.min_eq_left (by omega)]
  · rw [if_neg h]
    have h2 : ((2 : Int) ^ (bits - 1) - 1) = ((2 ^ (bits - 1) - 1 : Nat) : Int) := by
      rw [Nat.cast_sub hpos]; simp
    rw [h2, key _ (by omega), Nat.min_eq_right (by omega)]

/-- The result of `ParseOptions` on `spy` followed by a valid hexadecimal window-id
string: mode SPY and the value of the string, clamped to `LONG_MAX`. -/
theorem parse_spy_valid_id (bits : Nat) (prog s : CString) (win0 : Window) (st : World)
    (hs : isHexId s = true) :
    ParseOptions bits [prog, "spy".toList, s] win0 st =
      Res.ret (Mode.MODE_SPY, min (hexIdValue s) (2 ^ (bits - 1) - 1)) st := by
  have h := strtol16_hexId bits s [] hs (by simp) (by simp)
  rw [List.append_nil] at h
  have h1 : ("spy".toList = "list".toList) = False := by decide
  simp only [ParseOptions, List.length_cons, List.length_nil, List.getD_cons_succ,
    List.getD_cons_zero, h, h1, if_false, if_true, ne_eq, not_true_eq_false,
    toULong_clamp]
  simp

/-- C1 (as amended): for every argument vector `[prog, "spy", s]` where `s` is a valid
hexadecimal window-id string, `ParseOptions` returns mode SPY, writes nothing, and
stores in `*win` the number `s` denotes in base 16 when that number is at most
`LONG_MAX = 2^(bits-1) - 1`, and `LONG_MAX` itself when the number is larger. -/
theorem ParseOptions_spy_hexId (bits : Nat) (prog s : CString) (win0 : Window) (st : World)
    (hs : isHexId s = true) :
    ParseOptions bits [prog, "spy".toList, s] win0 st =
      Res.ret (Mode.MODE_SPY, min (hexIdValue s) (2 ^ (bits - 1) - 1)) st :=
  parse_spy_valid_id bits prog s win0 st hs

/-- C1, witness: `xspy spy 0x1200003` stores the window 0x1200003. -/
theorem ParseOptions_spy_hexId_witness :
    ParseOptions 64 ["xspy".toList, "spy".toList, "0x1200003".toList] 0 World.init =
      Res.ret (Mode.MODE_SPY, min (hexIdValue "0x1200003".toList) (2 ^ (64 - 1) - 1))
        World.init :=
  ParseOptions_spy_hexId 64 "xspy".toList "0x1200003".toList 0 World.init (by decide)

/-- C1, counterexample: the valid hexadecimal string `ffffffffffffffff` denotes
2^64 - 1, and `ParseOptions` stores `LONG_MAX` instead, with a 64-bit `long`
(2^63 - 1) as with a 32-bit one (2^31 - 1): the value is saturated. -/
theorem ParseOptions_spy_saturates :
    isHexId "ffffffffffffffff".toList = true ∧
    hexIdValue "ffffffffffffffff".toList = 18446744073709551615 ∧
    ParseOptions 64 ["xspy".toList, "spy".toList, "ffffffffffffffff".toList] 0 World.init =
      Res.ret (Mode.MODE_SPY, 9223372036854775807) World.init ∧
    ParseOptions 32 ["xspy".toList, "spy".toList, "ffffffffffffffff".toList] 0 World.init =
      Res.ret (Mode.MODE_SPY, 2147483647) World.init :=
  ⟨by decide, by decide, by rfl, by rfl⟩


/-- C2: for every argument vector `[prog, "spy", s]` where `s` is a hexadecimal number
`n` (the longest leading part of `s` that is a valid hexadecimal window-id string)
followed by a nonempty rest `t`, `ParseOptions` writes `Unknown number: 's'` and the
usage text to standard error and exits with status 1; `main` ends there too, with no
Xlib call issued (no connection attempt) and no event mask changed. -/
theorem ParseOptions_trailing_garbage (bits : Nat) (srv : Server) (fuel : Nat)
    (events : List XEvent) (prog n t : CString) (win0 : Window) (st : World)
    (hn : isHexId n = true) (ht : t ≠ [])
    (hmax : ∀ k, isHexId ((n ++ t).take k) = true → k ≤ n.length) :
    ParseOptions bits [prog, "spy".toList, n ++ t] win0 st =
      Res.exit 1 { st with err := st.err ++ ("Unknown number: '".toList ++ (n ++ t) ++
        "'\n".toList) ++ usageText } ∧
    main bits srv fuel events [prog, "spy".toList, n ++ t] win0 st =
      Res.exit 1 { st with err := st.err ++ ("Unknown number: '".toList ++ (n ++ t) ++
        "'\n".toList) ++ usageText } := by
  have ht1 : ∀ c r, t = c :: r → isHexDigit c = false := by
    intro c r hcr
    by_contra hc
    rw [Bool.not_eq_false] at hc
    have h1 := hmax (n.length + 1) (by
      rw [hcr, List.take_append_eq_append_take, List.take_of_length_le (Nat.le_succ _)]
      simpa using isHexId_snoc n c hn hc)
    omega
  have hno : ∀ x h r, n = ['0'] → t = x :: h :: r → (x = 'x' ∨ x = 'X') →
      isHexDigit h = false := by
    intro x h r hn0 htx hx
    by_contra hh
    rw [Bool.not_eq_false] at hh
    have h1 := hmax 3 (by
      subst hn0 htx
      rcases hx with rfl | rfl <;> simp [isHexId, hexIdDigits, hh])
    subst hn0
    simp at h1
  have h := strtol16_hexId bits n t hn ht1 hno
  have h1 : ("spy".toList = "list".toList) = False := by decide
  have hp : ParseOptions bits [prog, "spy".toList, n ++ t] win0 st =
      Res.exit 1 { st with err := st.err ++ ("Unknown number: '".toList ++ (n ++ t) ++
        "'\n".toList) ++ usageText } := by
    simp only [ParseOptions, List.length_cons, List.length_nil, List.getD_cons_succ,
      List.getD_cons_zero, h, h1, if_false, if_true, ne_eq, not_true_eq_false, ht,
      not_false_eq_true, DisplayUsage, World.eprintf]
    simp
  exact ⟨hp, by rw [main, hp]⟩

/-- C2, witness: `xspy spy 12z` is refused (the number is `12`, the rest `z`). -/
theorem ParseOptions_trailing_garbage_witness :
    main 64 ⟨true, 1, fun _ => some [], fun _ => none, fun _ => 0, fun _ => none⟩ 5 []
        ["xspy".toList, "spy".toList, "12".toList ++ "z".toList] 0 World.init =
      Res.exit 1 { World.init with err := World.init.err ++ ("Unknown number: '".toList ++
        ("12".toList ++ "z".toList) ++ "'\n".toList) ++ usageText } :=
  (ParseOptions_trailing_garbage 64 ⟨true, 1, fun _ => some [], fun _ => none, fun _ => 0,
    fun _ => none⟩ 5 [] "xspy".toList "12".toList "z".toList 0 World.init (by decide)
    (by decide) (by
      intro k hk
      by_contra hlt
      have h3 : ("12".toList ++ "z".toList).take k = "12z".toList :=
        List.take_of_length_le (by
          have : ("12".toList ++ "z".toList).length = 3 := by decide
          have : ("12".toList).length = 2 := by decide
          omega)
      rw [h3] at hk
      exact absurd hk (by decide))).2

/-- C3: with no argument after the program name, or with a first argument that is
neither `list` nor `spy` (`help` included), the program writes the usage text to standard
error (after `Unknown mode '...'` unless the argument is `help`) and exits with status 1
without issuing any Xlib call; with the first argument `list`, `ParseOptions` returns
mode LIST without exiting and without writing, whatever arguments follow. -/
theorem main_usage_or_list (bits : Nat) (srv : Server) (fuel : Nat) (events : List XEvent)
    (win0 : Window) (st : World) :
    (∀ argv : List CString, argv.length ≤ 1 →
      main bits srv fuel events argv win0 st =
        Res.exit 1 { st with err := st.err ++ usageText }) ∧
    (∀ (prog arg : CString) (rest : List CString),
      arg ≠ "list".toList → arg ≠ "spy".toList →
      main bits srv fuel events (prog :: arg :: rest) win0 st =
        Res.exit 1 { st with err := st.err ++
          (if arg = "help".toList then [] else "Unknown mode '".toList ++ arg ++ "'\n".toList)
          ++ usageText }) ∧
    (∀ (prog : CString) (rest : List CString),
      ParseOptions bits (prog :: "list".toList :: rest) win0 st =
        Res.ret (Mode.MODE_LIST, win0) st) := by
  refine ⟨?_, ?_, ?_⟩
  · intro argv hlen
    have hp : ParseOptions bits argv win0 st =
        Res.exit 1 { st with err := st.err ++ usageText } := by
      simp only [ParseOptions, gt_iff_lt, if_neg (Nat.not_lt.mpr hlen), DisplayUsage,
        World.eprintf]
    rw [main, hp]
  · intro prog arg rest h1 h2
    have hp : ParseOptions bits (prog :: arg :: rest) win0 st =
        Res.exit 1 { st with err := st.err ++
          (if arg = "help".toList then [] else "Unknown mode '".toList ++ arg ++ "'\n".toList)
          ++ usageText } := by
      by_cases h3 : arg = "help".toList
      · rw [if_pos h3]
        simp only [ParseOptions, List.length_cons, List.getD_cons_succ, List.getD_cons_zero,
          h1, h2, if_false, DisplayUsage, World.eprintf]
        rw [if_pos h3]
        simp
      · rw [if_neg h3]
        simp only [ParseOptions, List.length_cons, List.getD_cons_succ, List.getD_cons_zero,
          h1, h2, if_false, DisplayUsage, World.eprintf]
        rw [if_neg h3]
        simp
    rw [main, hp]
  · intro prog rest
    simp [ParseOptions]

/-- C3, witness: `xspy`, `xspy help` and `xspy foo` end with the usage text and status
1, and `xspy list extra` parses to mode LIST. -/
theorem main_usage_or_list_witness :
    main 64 ⟨true, 1, fun _ => some [], fun _ => none, fun _ => 0, fun _ => none⟩ 5 []
        ["xspy".toList] 0 World.init =
      Res.exit 1 { World.init with err := World.init.err ++ usageText } ∧
    main 64 ⟨true, 1, fun _ => some [], fun _ => none, fun _ => 0, fun _ => none⟩ 5 []
        ["xspy".toList, "foo".toList] 0 World.init =
      Res.exit 1 { World.init with err := World.init.err ++
        (if "foo".toList = "help".toList then []
          else "Unknown mode '".toList ++ "foo".toList ++ "'\n".toList) ++ usageText } ∧
    ParseOptions 64 ["xspy".toList, "list".toList, "extra".toList] 0 World.init =
      Res.ret (Mode.MODE_LIST, 0) World.init :=
  ⟨(main_usage_or_list 64 _ 5 [] 0 World.init).1 ["xspy".toList] (by decide),
   (main_usage_or_list 64 _ 5 [] 0 World.init).2.1 "xspy".toList "foo".toList []
     (by decide) (by decide),
   (main_usage_or_list 64 ⟨true, 1, fun _ => some [], fun _ => none, fun _ => 0,
     fun _ => none⟩ 5 [] 0 World.init).2.2 "xspy".toList ["extra".toList]⟩

/-! ## Lemmas on the `%#.8lx` conversion -/

theorem hexChar_lookup (d : Nat) (h : d < 16) :
    hexDigitTable.lookup (hexChar d) = some d ∧ isLowerHexDigit (hexChar d) = true := by
  interval_cases d <;> exact ⟨by decide, by decide⟩

theorem hexDigitsAux_value (fuel n : Nat) (acc : CString) (h : n < 16 ^ fuel) :
    List.foldl (fun a c => a * 16 + (hexDigitTable.lookup c).getD 0) 0
        (hexDigitsAux fuel n acc) =
      List.foldl (fun a c => a * 16 + (hexDigitTable.lookup c).getD 0) n acc := by
  induction fuel generalizing n acc with
  | zero => simp at h; subst h; rfl
  | succ fuel ih =>
    unfold hexDigitsAux
    by_cases hn : n < 16
    · rw [if_pos hn]
      simp [(hexChar_lookup n hn).1]
    · rw [if_neg hn, ih _ _ (by rw [pow_succ] at h; omega)]
      simp only [List.foldl_cons, (hexChar_lookup (n % 16) (Nat.mod_lt _ (by norm_num))).1,
        Option.getD_some]
      congr 1
      omega

theorem lt_sixteen_pow (n : Nat) : n < 16 ^ (n + 1) :=
  calc n < 2 ^ n := Nat.lt_two_pow n
    _ ≤ 16 ^ n := Nat.pow_le_pow_left (by norm_num) n
    _ ≤ 16 ^ (n + 1) := Nat.pow_le_pow_right (by norm_num) (Nat.le_succ n)

theorem hexValue_hexDigits (n : Nat) : hexValue (hexDigits n) = n := by
  unfold hexValue hexDigits
  rw [hexDigitsAux_value _ _ _ (lt_sixteen_pow n)]
  rfl

theorem hexDigitsAux_lower (fuel n : Nat) (acc : CString)
    (hacc : ∀ c ∈ acc, isLowerHexDigit c = true) :
    ∀ c ∈ hexDigitsAux fuel n acc, isLowerHexDigit c = true := by
  induction fuel generalizing n acc with
  | zero => exact hacc
  | succ fuel ih =>
    unfold hexDigitsAux
    by_cases hn : n < 16
    · rw [if_pos hn]
      intro c hc
      rcases List.mem_cons.mp hc with rfl | hc
      · exact (hexChar_lookup n hn).2
      · exact hacc c hc
    · rw [if_neg hn]
      apply ih
      intro c hc
      rcases List.mem_cons.mp hc with rfl | hc
      · exact (hexChar_lookup (n % 16) (Nat.mod_lt _ (by norm_num))).2
      · exact hacc c hc

theorem hexDigitsAux_length (fuel k n : Nat) (acc : CString) (hk : 0 < k) (hf : k ≤ fuel)
    (h : n < 16 ^ k) : (hexDigitsAux fuel n acc).length ≤ k + acc.length := by
  induction fuel generalizing k n acc with
  | zero => omega
  | succ fuel ih =>
    unfold hexDigitsAux
    by_cases hn : n < 16
    · rw [if_pos hn]; simp; omega
    · rw [if_neg hn]
      obtain ⟨j, rfl⟩ : ∃ j, k = j + 1 := ⟨k - 1, by omega⟩
      have hj : 0 < j := by
        rcases Nat.eq_zero_or_pos j with rfl | hj
        · simp at h; omega
        · exact hj
      have := ih j (n / 16) (hexChar (n % 16) :: acc) hj (by omega)
        (by rw [pow_succ] at h; omega)
      simp at this
      omega

/-- The digits `%.8lx` prints: lowercase hexadecimal digits whose value is `w`, at
least eight of them, exactly eight when `w` is below 2^32. -/
theorem zeroPad8_hexDigits (w : Nat) :
    (∀ c ∈ zeroPad8 (hexDigits w), isLowerHexDigit c = true) ∧
    hexValue (zeroPad8 (hexDigits w)) = w ∧
    8 ≤ (zeroPad8 (hexDigits w)).length ∧
    (w < 2 ^ 32 → (zeroPad8 (hexDigits w)).length = 8) := by
  refine ⟨?_, ?_, ?_, ?_⟩
  · intro c hc
    rcases List.mem_append.mp hc with hc | hc
    · rw [List.eq_of_mem_replicate hc]; decide
    · exact hexDigitsAux_lower _ _ _ (by simp) c hc
  · have hz : ∀ k (ds : CString), List.foldl
        (fun a c => a * 16 + (hexDigitTable.lookup c).getD 0) 0 (List.replicate k '0' ++ ds)
        = List.foldl (fun a c => a * 16 + (hexDigitTable.lookup c).getD 0) 0 ds := by
      intro k ds
      induction k with
      | zero => rfl
      | succ k ih =>
        rw [List.replicate_succ, List.cons_append, List.foldl_cons]
        exact ih
    unfold zeroPad8 hexValue
    rw [hz]
    exact hexValue_hexDigits w
  · simp only [zeroPad8, List.length_append, List.length_replicate]; omega
  · intro hw
    have hlen : (hexDigits w).length ≤ 8 := by
      by_cases hf : 8 ≤ w + 1
      · have := hexDigitsAux_length (w + 1) 8 w [] (by norm_num) hf
          (by norm_num at hw ⊢; omega)
        simpa using this
      · have := hexDigitsAux_length (w + 1) 1 w [] (by norm_num) (by omega) (by omega)
        have h1 : (hexDigits w).length ≤ 1 := by simpa using this
        omega
    simp only [zeroPad8, List.length_append, List.length_replicate]; omega

/-! ## `PrintWindow` -/

theorem indentLoop_eq (depth : Nat) (st : World) :
    indentLoop depth st = { st with out := st.out ++ List.replicate (2 * depth) ' ' } := by
  induction depth generalizing st with
  | zero => simp [indentLoop]
  | succ d ih =>
    rw [indentLoop, ih]
    have h : List.replicate (2 * (d + 1)) ' ' = "  ".toList ++ List.replicate (2 * d) ' ' := by
      rw [show 2 * (d + 1) = 2 * d + 1 + 1 by ring, List.replicate_succ, List.replicate_succ]
      rfl
    simp [World.printf, h]

/-- The whole effect of `PrintWindow`: one line on standard output and one name query. -/
theorem PrintWindow_eq (srv : Server) (w : Window) (depth : Nat) (st : World) :
    PrintWindow srv w depth st =
      { st with out := st.out ++ windowLine srv w depth,
                trace := st.trace ++ [XCall.FetchName w] } := by
  unfold PrintWindow windowLine titleField
  rw [indentLoop_eq]
  cases srv.fetchName w <;> simp [World.printf, World.call]

/-- C6 (as amended): for every window identifier `w` and depth `d`, the line printed by
`PrintWindow` is `2 * d` spaces, then the identifier as `%#.8lx` gives it, then ` - `,
then the quoted title or the placeholder, then a newline; for `w` nonzero the
identifier is `0x` followed by the lowercase hexadecimal digits of `w` zero-padded to at
least eight digits (exactly eight below 2^32), and for `w = 0` it is `00000000` with no
`0x` in front. -/
theorem PrintWindow_line_format (srv : Server) (w : Window) (d : Nat) (st : World) :
    (PrintWindow srv w d st).out =
      st.out ++ List.replicate (2 * d) ' ' ++
        (if w = 0 then "00000000".toList else "0x".toList ++ zeroPad8 (hexDigits w)) ++
        " - ".toList ++ titleField srv w ++ "\n".toList ∧
    (∀ c ∈ zeroPad8 (hexDigits w), isLowerHexDigit c = true) ∧
    hexValue (zeroPad8 (hexDigits w)) = w ∧
    8 ≤ (zeroPad8 (hexDigits w)).length ∧
    (w < 2 ^ 32 → (zeroPad8 (hexDigits w)).length = 8) := by
  refine ⟨?_, zeroPad8_hexDigits w⟩
  rw [PrintWindow_eq]
  by_cases hw : w = 0
  · subst hw
    simp [windowLine, fmtAltHex8, zeroPad8, hexDigits, hexDigitsAux, hexChar]
  · simp [windowLine, fmtAltHex8, hw]

/-- C6, witness: window 0x1200003 at depth 1 is printed with eight digits. -/
theorem PrintWindow_line_format_witness :
    (0x1200003 < 2 ^ 32 → (zeroPad8 (hexDigits 0x1200003)).length = 8) ∧
    (PrintWindow Server.example 0x1200003 1 World.init).out =
      World.init.out ++ List.replicate (2 * 1) ' ' ++
        (if 0x1200003 = 0 then "00000000".toList
          else "0x".toList ++ zeroPad8 (hexDigits 0x1200003)) ++
        " - ".toList ++ titleField Server.example 0x1200003 ++ "\n".toList :=
  ⟨(PrintWindow_line_format Server.example 0x1200003 1 World.init).2.2.2.2,
   (PrintWindow_line_format Server.example 0x1200003 1 World.init).1⟩

/-- C6, counterexample: for the window identifier 0 the line does not start with `0x`:
`PrintWindow` prints `00000000 - (has no name)`, where the format `0x%08x` gives
`0x00000000 - (has no name)`. -/
theorem PrintWindow_zero_unprefixed :
    (PrintWindow Server.example 0 0 World.init).out = "00000000 - (has no name)\n".toList ∧
    (PrintWindow Server.example 0 0 World.init).out ≠
      "0x00000000 - (has no name)\n".toList := by
  decide

/-- C7: when the title lookup of `w` reports no title, `PrintWindow` prints the
placeholder `(has no name)` in the title position, directly between ` - ` and the
newline; when it reports the title `t`, `PrintWindow` prints `t` enclosed in double
quotes there. -/
theorem PrintWindow_title (srv : Server) (w : Window) (d : Nat) (st : World) :
    (srv.fetchName w = none →
      (PrintWindow srv w d st).out =
        st.out ++ List.replicate (2 * d) ' ' ++ fmtAltHex8 w ++ " - ".toList ++
          "(has no name)".toList ++ "\n".toList) ∧
    (∀ t, srv.fetchName w = some t →
      (PrintWindow srv w d st).out =
        st.out ++ List.replicate (2 * d) ' ' ++ fmtAltHex8 w ++ " - ".toList ++
          ("\"".toList ++ t ++ "\"".toList) ++ "\n".toList) := by
  constructor
  · intro h
    rw [PrintWindow_eq]
    simp [windowLine, titleField, h]
  · intro t h
    rw [PrintWindow_eq]
    simp [windowLine, titleField, h]

/-- C7, witness: window 3 of the example server has no title, window 2 is `xterm`. -/
theorem PrintWindow_title_witness :
    (PrintWindow Server.example 3 1 World.init).out =
        World.init.out ++ List.replicate (2 * 1) ' ' ++ fmtAltHex8 3 ++ " - ".toList ++
          "(has no name)".toList ++ "\n".toList ∧
    (PrintWindow Server.example 2 1 World.init).out =
        World.init.out ++ List.replicate (2 * 1) ' ' ++ fmtAltHex8 2 ++ " - ".toList ++
          ("\"".toList ++ "xterm".toList ++ "\"".toList) ++ "\n".toList :=
  ⟨(PrintWindow_title Server.example 3 1 World.init).1 (by decide),
   (PrintWindow_title Server.example 2 1 World.init).2 "xterm".toList (by decide)⟩

/-! ## The walker and the registrar over a finite tree -/

theorem Forest.roots_eq_nil (f : Forest) (h : Forest.roots f = []) : f = Forest.nil := by
  cases f with
  | nil => rfl
  | cons w c s => simp [Forest.roots] at h

theorem Forest.lines_cons (srv : Server) (w : Window) (c s : Forest) (d : Nat) :
    Forest.lines srv (Forest.cons w c s) d =
      windowLine srv w d ++ (Forest.lines srv c (d + 1) ++ Forest.lines srv s d) := by
  simp [Forest.lines, Forest.preorder]

theorem Forest.reportedBy_cons (srv : Server) (w : Window) (c s : Forest)
    (h : Forest.reportedBy srv (Forest.cons w c s) = true) :
    (srv.queryTree w = some (Forest.roots c) ∨ (srv.queryTree w = none ∧ c = Forest.nil)) ∧
    Forest.reportedBy srv c = true ∧ Forest.reportedBy srv s = true := by
  simp only [Forest.reportedBy, Bool.and_eq_true, Bool.or_eq_true, decide_eq_true_eq] at h
  obtain ⟨⟨h1, h2⟩, h3⟩ := h
  refine ⟨?_, h2, h3⟩
  rcases h1 with h1 | ⟨h1, h4⟩
  · exact Or.inl h1
  · exact Or.inr ⟨h1, Forest.roots_eq_nil c h4⟩

/-- The loop of `ListWindows` over the top level of a reported forest, with enough
fuel: it returns, having printed the lines of the forest in pre-order. -/
theorem ListWindows_loop_forest (srv : Server) (f : Forest) :
    ∀ (fuel d : Nat) (st : World), Forest.reportedBy srv f = true → Forest.height f ≤ fuel →
      (Forest.roots f).foldlM
          (fun st c => ListWindows srv fuel c (d + 1) (PrintWindow srv c d st)) st =
        some { st with out := st.out ++ Forest.lines srv f d,
                       trace := st.trace ++ Forest.listCalls f } := by
  induction f with
  | nil =>
    intro fuel d st _ _
    simp [Forest.roots, Forest.lines, Forest.preorder, Forest.listCalls]
  | cons w c s ihc ihs =>
    intro fuel d st hrep hfuel
    obtain ⟨hq, hc, hs⟩ := Forest.reportedBy_cons srv w c s hrep
    simp only [Forest.height] at hfuel
    obtain ⟨k, rfl⟩ : ∃ k, fuel = k + 1 := ⟨fuel - 1, by omega⟩
    have hw : ListWindows srv (k + 1) w (d + 1) (PrintWindow srv w d st) =
        some { st with out := st.out ++ (windowLine srv w d ++ Forest.lines srv c (d + 1)),
                       trace := st.trace ++
                         (XCall.FetchName w :: XCall.QueryTree w :: Forest.listCalls c) } := by
      rcases hq with hq | ⟨hq, rfl⟩
      · simp only [ListWindows, hq]
        rw [ihc k (d + 1) _ hc (by omega), PrintWindow_eq]
        simp [World.call]
      · simp only [ListWindows, hq, PrintWindow_eq]
        simp [World.call, Forest.lines, Forest.preorder, Forest.listCalls]
    rw [Forest.roots, List.foldlM_cons, hw]
    simp only [Option.bind_eq_bind, Option.some_bind]
    rw [ihs (k + 1) d _ hs (by omega), Forest.lines_cons]
    simp [Forest.listCalls]

theorem ListAllWindows_eq_loop (srv : Server) (fuel : Nat) (st : World) (f : Forest) :
    ListAllWindows srv fuel st =
      (Forest.roots (Forest.cons srv.root f Forest.nil)).foldlM
        (fun st c => ListWindows srv fuel c (0 + 1) (PrintWindow srv c 0 st)) st := by
  simp [ListAllWindows, Forest.roots]

/-- The whole effect of `ListAllWindows` on a server that reports a finite tree. -/
theorem ListAllWindows_forest (srv : Server) (f : Forest) (fuel : Nat) (st : World)
    (hrep : Forest.reportedBy srv (Forest.cons srv.root f Forest.nil) = true)
    (hfuel : Forest.height (Forest.cons srv.root f Forest.nil) ≤ fuel) :
    ListAllWindows srv fuel st =
      some { st with
        out := st.out ++ Forest.lines srv (Forest.cons srv.root f Forest.nil) 0,
        trace := st.trace ++ Forest.listCalls (Forest.cons srv.root f Forest.nil) } := by
  rw [ListAllWindows_eq_loop srv fuel st f, ListWindows_loop_forest srv _ fuel 0 st hrep hfuel]

theorem XSelectInput_eq (w : Window) (mask : Nat) (st : World) :
    XSelectInput w mask st =
      { st with masks := fun x => if x = w then mask else st.masks x,
                trace := st.trace ++ [XCall.SelectInput w mask] } := by
  simp [XSelectInput, World.call]

/-- The loop of `RegisterListeners` over the top level of a reported forest, with enough
fuel: it returns, having selected key events on the windows of the forest in
pre-order, and on no other window. -/
theorem RegisterListeners_loop_forest (srv : Server) (f : Forest) :
    ∀ (fuel : Nat) (st : World), Forest.reportedBy srv f = true → Forest.height f ≤ fuel →
      (Forest.roots f).foldlM
          (fun st c => RegisterListeners srv fuel c (RegisterListener c st)) st =
        some { st with
          masks := fun x =>
            if x ∈ Forest.windows f then KeyPressMask ||| KeyReleaseMask else st.masks x,
          trace := st.trace ++ Forest.registerCalls f } := by
  induction f with
  | nil =>
    intro fuel st _ _
    simp [Forest.roots, Forest.windows, Forest.registerCalls]
  | cons w c s ihc ihs =>
    intro fuel st hrep hfuel
    obtain ⟨hq, hc, hs⟩ := Forest.reportedBy_cons srv w c s hrep
    simp only [Forest.height] at hfuel
    obtain ⟨k, rfl⟩ : ∃ k, fuel = k + 1 := ⟨fuel - 1, by omega⟩
    have hw : RegisterListeners srv (k + 1) w (RegisterListener w st) =
        some { st with
          masks := fun x =>
            if x ∈ w :: Forest.windows c then KeyPressMask ||| KeyReleaseMask
            else st.masks x,
          trace := st.trace ++
            (XCall.SelectInput w (KeyPressMask ||| KeyReleaseMask) :: XCall.QueryTree w ::
              Forest.registerCalls c) } := by
      rcases hq with hq | ⟨hq, rfl⟩
      · simp only [RegisterListeners, hq]
        rw [ihc k _ hc (by omega), RegisterListener, XSelectInput_eq]
        simp only [World.call, List.append_assoc, List.singleton_append, List.mem_cons,
          Option.some.injEq, World.mk.injEq, true_and, and_true]
        refine ⟨?_, by simp⟩
        funext x
        by_cases h1 : x ∈ Forest.windows c <;> by_cases h2 : x = w <;> simp [h1, h2]
      · simp only [RegisterListeners, hq, RegisterListener, XSelectInput_eq]
        simp [World.call, Forest.windows, Forest.registerCalls]
    rw [Forest.roots, List.foldlM_cons, hw]
    simp only [Option.bind_eq_bind, Option.some_bind]
    rw [ihs (k + 1) _ hs (by omega)]
    simp only [Forest.registerCalls, Forest.windows, List.append_assoc, List.cons_append,
      List.mem_cons, List.mem_append, Option.some.injEq, World.mk.injEq, true_and, and_true]
    funext x
    by_cases h1 : x ∈ Forest.windows s <;> by_cases h2 : x = w <;>
      by_cases h3 : x ∈ Forest.windows c <;> simp [h1, h2, h3]

/-- The whole effect of `RegisterAllListeners` on a server that reports a finite tree. -/
theorem RegisterAllListeners_forest (srv : Server) (f : Forest) (fuel : Nat) (st : World)
    (hrep : Forest.reportedBy srv (Forest.cons srv.root f Forest.nil) = true)
    (hfuel : Forest.height (Forest.cons srv.root f Forest.nil) ≤ fuel) :
    RegisterAllListeners srv fuel st =
      some { st with
        masks := fun x =>
          if x ∈ Forest.windows (Forest.cons srv.root f Forest.nil) then
            KeyPressMask ||| KeyReleaseMask
          else st.masks x,
        trace := st.trace ++ Forest.registerCalls (Forest.cons srv.root f Forest.nil) } := by
  have h := RegisterListeners_loop_forest srv _ fuel st hrep hfuel
  simpa [RegisterAllListeners, Forest.roots] using h

theorem selectRequests_append (a b : List XCall) :
    selectRequests (a ++ b) = selectRequests a ++ selectRequests b := by
  induction a with
  | nil => rfl
  | cons c a ih => cases c <;> simp [selectRequests, ih]

theorem treeQueries_append (a b : List XCall) :
    treeQueries (a ++ b) = treeQueries a ++ treeQueries b := by
  induction a with
  | nil => rfl
  | cons c a ih => cases c <;> simp [treeQueries, ih]

theorem selectRequests_registerCalls (f : Forest) :
    selectRequests (Forest.registerCalls f) =
      (Forest.windows f).map (fun w => (w, KeyPressMask ||| KeyReleaseMask)) := by
  induction f with
  | nil => rfl
  | cons w c s ihc ihs =>
    simp [Forest.registerCalls, Forest.windows, selectRequests, selectRequests_append, ihc, ihs]

theorem Forest.preorder_fst (f : Forest) :
    ∀ d, (Forest.preorder f d).map Prod.fst = Forest.windows f := by
  induction f with
  | nil => intro d; rfl
  | cons w c s ihc ihs => intro d; simp [Forest.preorder, Forest.windows, ihc, ihs]

/-- C5: in list mode, for every finite window tree the server reports (root `srv.root`
with the forest `f` of its descendants) and enough fuel for its height, `ListAllWindows`
returns and has appended to standard output exactly one line per window, in pre-order (a
window before its children, children in server order), the line of a window at
distance `d` from the root being `2 * d` spaces followed by the identifier, ` - `, the
title position and a newline; and `main`, called with `list` on a display that opens,
returns 0 with exactly these lines on standard output. -/
theorem ListAllWindows_preorder_lines (srv : Server) (f : Forest) (fuel : Nat) (st : World)
    (hrep : Forest.reportedBy srv (Forest.cons srv.root f Forest.nil) = true)
    (hfuel : Forest.height (Forest.cons srv.root f Forest.nil) ≤ fuel) :
    (∃ st', ListAllWindows srv fuel st = some st' ∧
      st'.out = st.out ++
        ((Forest.preorder (Forest.cons srv.root f Forest.nil) 0).map
          (fun p => List.replicate (2 * p.2) ' ' ++
            (fmtAltHex8 p.1 ++ " - ".toList ++ titleField srv p.1 ++
              "\n".toList))).flatten) ∧
    (srv.canOpen = true →
      ∀ (bits : Nat) (events : List XEvent) (prog : CString) (rest : List CString)
        (win0 : Window),
        ∃ st', main bits srv fuel events (prog :: "list".toList :: rest) win0 st =
            Res.ret 0 st' ∧
          st'.out = st.out ++
            ((Forest.preorder (Forest.cons srv.root f Forest.nil) 0).map
              (fun p => List.replicate (2 * p.2) ' ' ++
                (fmtAltHex8 p.1 ++ " - ".toList ++ titleField srv p.1 ++
                  "\n".toList))).flatten) := by
  constructor
  · refine ⟨_, ListAllWindows_forest srv f fuel st hrep hfuel, ?_⟩
    simp [Forest.lines, windowLine]
  · intro hopen bits events prog rest win0
    have hp : ParseOptions bits (prog :: "list".toList :: rest) win0 st =
        Res.ret (Mode.MODE_LIST, win0) st := by
      simp [ParseOptions]
    have hm : main bits srv fuel events (prog :: "list".toList :: rest) win0 st =
        Res.ret 0 { st with
          out := st.out ++ Forest.lines srv (Forest.cons srv.root f Forest.nil) 0,
          trace := st.trace ++ XCall.OpenDisplay ::
            (Forest.listCalls (Forest.cons srv.root f Forest.nil) ++
              [XCall.CloseDisplay]) } := by
      rw [main, hp]
      simp only [mainAfterParse, hopen, Bool.true_eq_false, if_false]
      rw [ListAllWindows_forest srv f fuel _ hrep hfuel]
      simp [World.call]
    refine ⟨_, hm, ?_⟩
    simp [Forest.lines, windowLine]

/-- C5, witness: the example server reports root 1 with children 2 (child 4) and 3. -/
theorem ListAllWindows_preorder_lines_witness :
    ∃ st', ListAllWindows Server.example 3 World.init = some st' ∧
      st'.out = World.init.out ++
        ((Forest.preorder (Forest.cons Server.example.root Forest.example Forest.nil) 0).map
          (fun p => List.replicate (2 * p.2) ' ' ++
            (fmtAltHex8 p.1 ++ " - ".toList ++ titleField Server.example p.1 ++
              "\n".toList))).flatten :=
  (ListAllWindows_preorder_lines Server.example Forest.example 3 World.init (by decide)
    (by decide)).1

/-- C10: for every finite tree the server reports (failing tree queries included) and
enough fuel, `ListAllWindows` and `RegisterAllListeners` both return, the windows on
which `RegisterAllListeners` issues `XSelectInput` are, in order, the windows whose lines
`ListAllWindows` prints (the pre-order of the tree), every such request carries the mask
`KeyPressMask | KeyReleaseMask`, and afterwards the event mask of each of these windows
is exactly that mask, whatever it was before, while the mask of every other window is
unchanged; a single `RegisterListener` on `w` likewise sets the mask of `w` to exactly
that mask, whatever the previous one, and leaves every other mask as it was. -/
theorem RegisterAllListeners_follows_ListAllWindows (srv : Server) (f : Forest) (fuel : Nat)
    (stL stR : World)
    (hrep : Forest.reportedBy srv (Forest.cons srv.root f Forest.nil) = true)
    (hfuel : Forest.height (Forest.cons srv.root f Forest.nil) ≤ fuel) :
    ∃ stL' stR', ListAllWindows srv fuel stL = some stL' ∧
      RegisterAllListeners srv fuel stR = some stR' ∧
      stL'.out = stL.out ++
        ((Forest.preorder (Forest.cons srv.root f Forest.nil) 0).map
          (fun p => windowLine srv p.1 p.2)).flatten ∧
      selectRequests stR'.trace = selectRequests stR.trace ++
        (Forest.preorder (Forest.cons srv.root f Forest.nil) 0).map
          (fun p => (p.1, KeyPressMask ||| KeyReleaseMask)) ∧
      stR'.masks = (fun x =>
        if x ∈ (Forest.preorder (Forest.cons srv.root f Forest.nil) 0).map Prod.fst then
          KeyPressMask ||| KeyReleaseMask
        else stR.masks x) ∧
      (∀ (w : Window) (st : World),
        (RegisterListener w st).masks w = KeyPressMask ||| KeyReleaseMask ∧
        ∀ x, x ≠ w → (RegisterListener w st).masks x = st.masks x) := by
  refine ⟨_, _, ListAllWindows_forest srv f fuel stL hrep hfuel,
    RegisterAllListeners_forest srv f fuel stR hrep hfuel, rfl, ?_, ?_, ?_⟩
  · simp only [selectRequests_append, selectRequests_registerCalls]
    rw [← Forest.preorder_fst _ 0, List.map_map]
    rfl
  · simp only [Forest.preorder_fst]
  · intro w st
    refine ⟨by simp [RegisterListener, XSelectInput], ?_⟩
    intro x hx
    simp [RegisterListener, XSelectInput, hx]

/-- C10, witness: on the example server both traversals visit 1, 2, 4, 3. -/
theorem RegisterAllListeners_follows_ListAllWindows_witness :
    ∃ stL' stR', ListAllWindows Server.example 3 World.init = some stL' ∧
      RegisterAllListeners Server.example 3 World.init = some stR' ∧
      stL'.out = World.init.out ++
        ((Forest.preorder (Forest.cons Server.example.root Forest.example Forest.nil) 0).map
          (fun p => windowLine Server.example p.1 p.2)).flatten ∧
      selectRequests stR'.trace = selectRequests World.init.trace ++
        (Forest.preorder (Forest.cons Server.example.root Forest.example Forest.nil) 0).map
          (fun p => (p.1, KeyPressMask ||| KeyReleaseMask)) ∧
      stR'.masks = (fun x =>
        if x ∈ (Forest.preorder
            (Forest.cons Server.example.root Forest.example Forest.nil) 0).map Prod.fst then
          KeyPressMask ||| KeyReleaseMask
        else World.init.masks x) ∧
      (∀ (w : Window) (st : World),
        (RegisterListener w st).masks w = KeyPressMask ||| KeyReleaseMask ∧
        ∀ x, x ≠ w → (RegisterListener w st).masks x = st.masks x) :=
  RegisterAllListeners_follows_ListAllWindows Server.example Forest.example 3 World.init
    World.init (by decide) (by decide)

/-! ## Failing tree queries -/

theorem ListWindows_setChildren (srv : Server) (w : Window) (hfail : srv.queryTree w = none) :
    ∀ (fuel : Nat) (v : Window) (d : Nat) (st : World),
      ListWindows srv fuel v d st =
        ListWindows (srv.setChildren w (some [])) fuel v d st := by
  intro fuel
  induction fuel with
  | zero => intro v d st; rfl
  | succ k ih =>
    intro v d st
    by_cases hv : v = w
    · subst hv
      simp [ListWindows, Server.setChildren, hfail]
    · simp only [ListWindows, Server.setChildren, hv, if_false]
      cases srv.queryTree v with
      | none => rfl
      | some l =>
        simp only
        congr 1
        funext st c
        exact ih c (d + 1) _

theorem RegisterListeners_setChildren (srv : Server) (w : Window)
    (hfail : srv.queryTree w = none) :
    ∀ (fuel : Nat) (v : Window) (st : World),
      RegisterListeners srv fuel v st =
        RegisterListeners (srv.setChildren w (some [])) fuel v st := by
  intro fuel
  induction fuel with
  | zero => intro v st; rfl
  | succ k ih =>
    intro v st
    by_cases hv : v = w
    · subst hv
      simp [RegisterListeners, Server.setChildren, hfail]
    · simp only [RegisterListeners, Server.setChildren, hv, if_false]
      cases srv.queryTree v with
      | none => rfl
      | some l =>
        simp only
        congr 1
        funext st c
        exact ih c _

/-- C8: if the tree query of `w` fails, `ListWindows` and `RegisterListeners` called on
`w` return having only issued that query (no output, no subscription, nothing on
standard error), and the whole traversal, `ListAllWindows` as `RegisterAllListeners`,
ends in the same state as on the server where `w` has no children (the same tree with
the subtree of `w` removed, `w` itself still being visited by its parent's loop); both
return whenever the server reports a finite tree and the fuel covers its height. -/
theorem failed_query_skips_subtree (srv : Server) (w : Window) (fuel d : Nat) (st : World)
    (hfail : srv.queryTree w = none) :
    ListWindows srv (fuel + 1) w d st =
      some { st with trace := st.trace ++ [XCall.QueryTree w] } ∧
    RegisterListeners srv (fuel + 1) w st =
      some { st with trace := st.trace ++ [XCall.QueryTree w] } ∧
    ListAllWindows srv fuel st = ListAllWindows (srv.setChildren w (some [])) fuel st ∧
    RegisterAllListeners srv fuel st =
      RegisterAllListeners (srv.setChildren w (some [])) fuel st ∧
    (∀ f : Forest,
      Forest.reportedBy srv (Forest.cons srv.root f Forest.nil) = true →
      Forest.height (Forest.cons srv.root f Forest.nil) ≤ fuel →
      (ListAllWindows srv fuel st).isSome = true ∧
      (RegisterAllListeners srv fuel st).isSome = true) := by
  refine ⟨?_, ?_, ?_, ?_, ?_⟩
  · simp [ListWindows, hfail, World.call]
  · simp [RegisterListeners, hfail, World.call]
  · exact ListWindows_setChildren srv w hfail fuel _ 1 _
  · exact RegisterListeners_setChildren srv w hfail fuel _ _
  · intro f hrep hfuel
    rw [ListAllWindows_forest _ f fuel st hrep hfuel,
      RegisterAllListeners_forest _ f fuel st hrep hfuel]
    exact ⟨rfl, rfl⟩

/-- C8, witness: the tree query of window 3 of the example server fails; the list of the
example server is the list of the same tree where 3 has no children, and it is
produced with fuel 3. -/
theorem failed_query_skips_subtree_witness :
    ListAllWindows Server.example 3 World.init =
      ListAllWindows (Server.example.setChildren 3 (some [])) 3 World.init ∧
    (ListAllWindows Server.example 3 World.init).isSome = true ∧
    (RegisterAllListeners Server.example 3 World.init).isSome = true :=
  ⟨(failed_query_skips_subtree Server.example 3 3 0 World.init (by decide)).2.2.1,
   (failed_query_skips_subtree Server.example 3 3 0 World.init (by decide)).2.2.2.2
    Forest.example (by decide) (by decide)⟩

/-! ## The event loop -/

/-- The event loop never returns and touches only standard output. -/
theorem WaitForKeys_world (srv : Server) (events : List XEvent) :
    ∀ st : World, ∃ st', (WaitForKeys srv events st = Res.blocked st' ∨
        WaitForKeys srv events st = Res.undef st') ∧
      st'.err = st.err ∧ st'.masks = st.masks ∧ st'.trace = st.trace := by
  induction events with
  | nil => intro st; exact ⟨st, Or.inl rfl, rfl, rfl, rfl⟩
  | cons e rest ih =>
    intro st
    unfold WaitForKeys
    by_cases hk : e.type = KeyPress ∨ e.type = KeyRelease
    · rw [if_pos hk]
      cases hname : srv.keysymName (srv.lookupKeysym e) with
      | none =>
        simp only [hname]
        refine ⟨_, Or.inr rfl, ?_, ?_, ?_⟩ <;>
          by_cases hp : e.type = KeyPress <;> simp [hp, World.printf]
      | some name =>
        simp only [hname]
        obtain ⟨st', h1, h2, h3, h4⟩ := ih
          ((if e.type = KeyPress then
              (st.printf (fmtAltHex8 e.window ++ ": ".toList)).printf "KeyPress: ".toList
            else
              (st.printf (fmtAltHex8 e.window ++ ": ".toList)).printf
                "KeyRelease: ".toList).printf (name ++ "\n".toList))
        refine ⟨st', h1, ?_, ?_, ?_⟩
        · rw [h2]; by_cases hp : e.type = KeyPress <;> simp [hp, World.printf]
        · rw [h3]; by_cases hp : e.type = KeyPress <;> simp [hp, World.printf]
        · rw [h4]; by_cases hp : e.type = KeyPress <;> simp [hp, World.printf]
    · rw [if_neg hk]
      obtain ⟨st', h1, h2, h3, h4⟩ := ih (st.printf "UnhandledEvent\n".toList)
      exact ⟨st', h1, h2, h3, h4⟩

/-- The event loop on a script in which the keysym of every key-press and key-release
event has a name: `WaitForKeys` consumes the whole script, then waits, and has appended
to standard output the concatenation, in delivery order, of exactly one line per event:
for a key event the window identifier, `: `, `KeyPress: ` or `KeyRelease: ` according to
the event type, the name of the event's keysym and a newline; for any other event
`UnhandledEvent` and a newline. -/
theorem WaitForKeys_lines (srv : Server) (events : List XEvent) (st : World)
    (hnamed : ∀ e ∈ events, (e.type = KeyPress ∨ e.type = KeyRelease) →
      (srv.keysymName (srv.lookupKeysym e)).isSome = true) :
    WaitForKeys srv events st =
      Res.blocked { st with out := st.out ++ (events.map (eventLine srv)).flatten } := by
  induction events generalizing st with
  | nil => simp [WaitForKeys]
  | cons e rest ih =>
    have hrest : ∀ x ∈ rest, (x.type = KeyPress ∨ x.type = KeyRelease) →
        (srv.keysymName (srv.lookupKeysym x)).isSome = true :=
      fun x hx => hnamed x (List.mem_cons_of_mem _ hx)
    unfold WaitForKeys
    by_cases hk : e.type = KeyPress ∨ e.type = KeyRelease
    · rw [if_pos hk]
      obtain ⟨name, hname⟩ := Option.isSome_iff_exists.mp (hnamed e (List.mem_cons_self _ _) hk)
      simp only [hname]
      rw [ih _ hrest]
      rcases hk with hp | hr
      · simp [eventLine, hp, hname, World.printf]
      · have hnp : KeyRelease ≠ KeyPress := by decide
        simp [eventLine, hnp, hr, hname, World.printf]
    · rw [if_neg hk, ih _ hrest]
      have h1 : e.type ≠ KeyPress := fun h => hk (Or.inl h)
      have h2 : e.type ≠ KeyRelease := fun h => hk (Or.inr h)
      simp [eventLine, h1, h2, World.printf]

/-- Example: a press and a release of the key `a` on window 4, then another event. -/
theorem WaitForKeys_lines_example :
    WaitForKeys Server.example
        [⟨KeyPress, 4, 97, 0⟩, ⟨KeyRelease, 4, 97, 0⟩, ⟨12, 4, 0, 0⟩] World.init =
      Res.blocked { World.init with out := World.init.out ++
        ([⟨KeyPress, 4, 97, 0⟩, ⟨KeyRelease, 4, 97, 0⟩, ⟨12, 4, 0, 0⟩].map
          (eventLine Server.example)).flatten } :=
  WaitForKeys_lines Server.example _ World.init (by decide)

/-- C9, failing input: a key press whose keycode has no keysym (`XLookupString` stores
`NoSymbol`, for which `XKeysymToString` returns NULL), followed by a release of the key
`a`. After `0x00000004: KeyPress: ` the loop reaches `printf("%s\n", NULL)`: the
behaviour is undefined from there on, the line of the first event is not completed and
no line is guaranteed for the second event, where one line per event is expected
(`0x00000004: KeyRelease: a` for the second one). -/
theorem WaitForKeys_unnamed_keysym :
    Server.example.keysymName (Server.example.lookupKeysym ⟨KeyPress, 4, 0, 0⟩) = none ∧
    WaitForKeys Server.example [⟨KeyPress, 4, 0, 0⟩, ⟨KeyRelease, 4, 97, 0⟩] World.init =
      Res.undef { World.init with out := "0x00000004: KeyPress: ".toList } ∧
    eventLine Server.example ⟨KeyRelease, 4, 97, 0⟩ = "0x00000004: KeyRelease: a\n".toList :=
  ⟨rfl, rfl, by decide⟩

/-! ## `main` in spy mode -/

/-- The spy branch of `main` ends in the state of the registration, up to standard
output. -/
theorem mainAfterParse_spy_world (srv : Server) (fuel : Nat) (events : List XEvent)
    (win : Window) (st reg : World) (hopen : srv.canOpen = true)
    (hreg : (if win = 0 then RegisterAllListeners srv fuel (st.call XCall.OpenDisplay)
      else some (RegisterListener win (st.call XCall.OpenDisplay))) = some reg) :
    ∃ st', (mainAfterParse srv fuel events Mode.MODE_SPY win st).world = some st' ∧
      st'.err = reg.err ∧ st'.masks = reg.masks ∧ st'.trace = reg.trace := by
  obtain ⟨st', h1, h2, h3, h4⟩ := WaitForKeys_world srv events reg
  refine ⟨st', ?_, h2, h3, h4⟩
  simp only [mainAfterParse, hopen, Bool.true_eq_false, if_false, hreg]
  rcases h1 with h1 | h1 <;> rw [h1] <;> rfl

/-- C4 (as amended): when the display opens, for every invocation `spy <id>` with a
valid hexadecimal id whose value is nonzero and at most `LONG_MAX`, the program issues,
after `XOpenDisplay`, exactly one `XSelectInput`, on the window whose identifier was
given, and no tree query, and only that window's event mask changes; with an id whose
value is zero the program behaves as with the id omitted; and with the id omitted, on a
server that reports a finite tree, it selects key events on the root and every
descendant, in pre-order, with one tree query per window. -/
theorem main_spy_target (bits : Nat) (srv : Server) (fuel : Nat) (events : List XEvent)
    (prog : CString) (win0 : Window) (st : World) (hopen : srv.canOpen = true) :
    (∀ s, isHexId s = true → 0 < hexIdValue s → hexIdValue s < 2 ^ (bits - 1) →
      ∃ st', (main bits srv fuel events [prog, "spy".toList, s] win0 st).world = some st' ∧
        st'.trace = st.trace ++ [XCall.OpenDisplay,
          XCall.SelectInput (hexIdValue s) (KeyPressMask ||| KeyReleaseMask)] ∧
        treeQueries st'.trace = treeQueries st.trace ∧
        st'.masks = (fun x =>
          if x = hexIdValue s then KeyPressMask ||| KeyReleaseMask else st.masks x)) ∧
    (∀ s, isHexId s = true → hexIdValue s = 0 →
      main bits srv fuel events [prog, "spy".toList, s] win0 st =
        main bits srv fuel events [prog, "spy".toList] win0 st) ∧
    (∀ f : Forest, Forest.reportedBy srv (Forest.cons srv.root f Forest.nil) = true →
      Forest.height (Forest.cons srv.root f Forest.nil) ≤ fuel →
      ∃ st', (main bits srv fuel events [prog, "spy".toList] win0 st).world = some st' ∧
        st'.trace = st.trace ++ XCall.OpenDisplay ::
          Forest.registerCalls (Forest.cons srv.root f Forest.nil) ∧
        selectRequests st'.trace = selectRequests st.trace ++
          (Forest.preorder (Forest.cons srv.root f Forest.nil) 0).map
            (fun p => (p.1, KeyPressMask ||| KeyReleaseMask)) ∧
        st'.masks = (fun x =>
          if x ∈ (Forest.preorder (Forest.cons srv.root f Forest.nil) 0).map Prod.fst then
            KeyPressMask ||| KeyReleaseMask
          else st.masks x)) := by
  have hnoid : ParseOptions bits [prog, "spy".toList] win0 st =
      Res.ret (Mode.MODE_SPY, 0) st := by
    have h1 : ("spy".toList = "list".toList) = False := by decide
    simp [ParseOptions, h1]
  refine ⟨?_, ?_, ?_⟩
  · intro s hs hpos hlt
    have hp := parse_spy_valid_id bits prog s win0 st hs
    rw [Nat.min_eq_left (by omega)] at hp
    have hne : hexIdValue s ≠ 0 := by omega
    obtain ⟨st', h1, -, h3, h4⟩ := mainAfterParse_spy_world srv fuel events (hexIdValue s) st
      (RegisterListener (hexIdValue s) (st.call XCall.OpenDisplay)) hopen (by rw [if_neg hne])
    refine ⟨st', ?_, ?_, ?_, ?_⟩
    · rw [main, hp]; exact h1
    · rw [h4]; simp [RegisterListener, XSelectInput_eq, World.call]
    · rw [h4]
      simp [RegisterListener, XSelectInput_eq, World.call, treeQueries_append, treeQueries]
    · rw [h3]; simp [RegisterListener, XSelectInput_eq, World.call]
  · intro s hs hz
    have hp := parse_spy_valid_id bits prog s win0 st hs
    rw [hz, Nat.zero_min] at hp
    rw [main, main, hp, hnoid]
  · intro f hrep hfuel
    have hreg := RegisterAllListeners_forest srv f fuel (st.call XCall.OpenDisplay) hrep hfuel
    obtain ⟨st', h1, -, h3, h4⟩ := mainAfterParse_spy_world srv fuel events 0 st _ hopen
      (by rw [if_pos rfl]; exact hreg)
    refine ⟨st', ?_, ?_, ?_, ?_⟩
    · rw [main, hnoid]; exact h1
    · rw [h4]; simp [World.call]
    · rw [h4]
      simp only [World.call, selectRequests_append, selectRequests_registerCalls]
      rw [← Forest.preorder_fst _ 0, List.map_map]
      simp [selectRequests]
    · rw [h3]; simp [World.call, Forest.preorder_fst]

/-- C4, witness: `xspy spy 0x1200003` on the example server selects on window
0x1200003 only. -/
theorem main_spy_target_witness :
    ∃ st', (main 64 Server.example 3 [] ["xspy".toList, "spy".toList, "0x1200003".toList] 0
        World.init).world = some st' ∧
      st'.trace = World.init.trace ++ [XCall.OpenDisplay,
        XCall.SelectInput (hexIdValue "0x1200003".toList) (KeyPressMask ||| KeyReleaseMask)] ∧
      treeQueries st'.trace = treeQueries World.init.trace ∧
      st'.masks = (fun x =>
        if x = hexIdValue "0x1200003".toList then KeyPressMask ||| KeyReleaseMask
        else World.init.masks x) :=
  (main_spy_target 64 Server.example 3 [] "xspy".toList 0 World.init (by decide)).1
    "0x1200003".toList (by decide) (by decide) (by decide)

/-- C4, counterexample: `xspy spy 0` gives a valid hexadecimal id, and the program does
not register on the one window 0: it queries the tree and selects key events on every
window of the display (1, 2, 4 and 3 on the example server). -/
theorem main_spy_zero_registers_all :
    isHexId "0".toList = true ∧
    (main 64 Server.example 3 [] ["xspy".toList, "spy".toList, "0".toList] 0
        World.init).world.map World.trace =
      some [XCall.OpenDisplay,
        XCall.SelectInput 1 3, XCall.QueryTree 1, XCall.SelectInput 2 3, XCall.QueryTree 2,
        XCall.SelectInput 4 3, XCall.QueryTree 4, XCall.SelectInput 3 3, XCall.QueryTree 3] := by
  decide

end XSpy
